import Mathlib

/-
Verification of the Large-Artifact Delivery Pipeline (bot.py).

Shallow embedding conventions:
- file contents are lists of bytes (modelled as Nat);
- the filesystem, where needed, is a list of existing paths;
- the effectful handlers are modelled as pure functions from their external
  oracles (dependency checks, probe/fetch results, send outcomes) to the
  ordered trace of externally visible actions they perform;
- machine floats appear only in CHUNK_SIZE (its integer truncation is inlined
  as a literal) and in format_filesize, whose logarithm is modelled by the
  exact real logarithm, Nat.log (see the doc comment there).
-/

/-- Transport hard limit from bot.py line 21: MAX_FILE_SIZE = 2 * 1024 * 1024 * 1024. -/
def MAX_FILE_SIZE : Nat := 2 * 1024 * 1024 * 1024

/-- Chunk limit from bot.py line 22: CHUNK_SIZE = 1.9 * 1024 * 1024 * 1024, a float.
split_file reads blocks of int(CHUNK_SIZE); with IEEE-754 doubles,
int(1.9 * 1073741824) = 2040109465, which we inline as a literal. -/
def CHUNK_SIZE_BYTES : Nat := 2040109465

/-- Reserved characters of escape_markdown_v2 (bot.py line 86). -/
def reservedChars : List Char := "_*[]()~\x60>#+-=|\x7b\x7d.!".toList

/-- Model of escape_markdown_v2 (bot.py lines 82-87): every reserved character is
preceded by a backslash, all other characters pass through. -/
def escape_markdown_v2 (text : String) : String :=
  String.join (text.toList.map (fun c =>
    if reservedChars.contains c then String.mk ['\\', c] else String.mk [c]))

/-- Scheme alternatives of the optional group in each pattern of is_youtube_url. -/
def schemeAlts : List String := ["", "http://", "https://"]

/-- Alternatives of the optional www group in the first pattern of is_youtube_url. -/
def wwwAlts : List String := ["", "www."]

/-- Host alternatives of the first pattern of is_youtube_url. -/
def hostAlts : List String := ["youtube", "youtu", "youtube-nocookie"]

/-- Top-level-domain alternatives of the first pattern of is_youtube_url. -/
def tldAlts : List String := ["com", "be"]

/-- Unrolled first pattern of is_youtube_url (bot.py line 92). The regex has no
quantifiers, so re.match holds exactly when some alternative is a prefix of the url. -/
def pattern1Alts : List String :=
  schemeAlts.flatMap (fun s => wwwAlts.flatMap (fun w => hostAlts.flatMap (fun h =>
    tldAlts.map (fun t => s ++ w ++ h ++ "." ++ t ++ "/"))))

/-- Unrolled second pattern of is_youtube_url (bot.py line 93). -/
def pattern2Alts : List String := schemeAlts.map (fun s => s ++ "youtu.be/")

/-- Unrolled third pattern of is_youtube_url (bot.py line 94). -/
def pattern3Alts : List String := schemeAlts.map (fun s => s ++ "m.youtube.com/")

/-- Unrolled fourth pattern of is_youtube_url (bot.py line 95). -/
def pattern4Alts : List String := schemeAlts.map (fun s => s ++ "gaming.youtube.com/")

/-- Model of is_youtube_url (bot.py lines 89-97): re.match anchors at the start of
the string, so the check holds exactly when some unrolled alternative of one of the
four patterns is a prefix of the url (compared as character lists). -/
def is_youtube_url (url : String) : Bool :=
  (pattern1Alts ++ pattern2Alts ++ pattern3Alts ++ pattern4Alts).any
    (fun p => p.toList.isPrefixOf url.toList)

/-- Round a rational to the nearest integer, ties to even, as Python round does. -/
def roundHalfEven (y : ℚ) : ℤ :=
  if y - ⌊y⌋ < 1/2 then ⌊y⌋
  else if 1/2 < y - ⌊y⌋ then ⌊y⌋ + 1
  else if 2 ∣ ⌊y⌋ then ⌊y⌋ else ⌊y⌋ + 1

/-- Model of round(x, 2) from bot.py line 116. -/
def round2 (x : ℚ) : ℚ := (roundHalfEven (x * 100) : ℚ) / 100

/-- Unit table of format_filesize (bot.py line 113). -/
def size_names : List String := ["B", "KB", "MB", "GB"]

/-- Model of format_filesize (bot.py lines 109-117). The Python index
i = int(math.floor(math.log(size_bytes, 1024))) is modelled by the exact value
Nat.log 1024 size_bytes, which equals the floor of the real base-1024 logarithm
for size_bytes >= 1; an out-of-range lookup size_names[i] raises IndexError in
Python and is modelled as none. The result pair is the rounded numeric value and
the escaped unit text (Python interpolates them into one escaped string; the
escaping of the digits is presentation only). -/
def format_filesize (size_bytes : Nat) : Option (ℚ × String) :=
  if size_bytes = 0 then some (0, escape_markdown_v2 "0 B")
  else
    match size_names[Nat.log 1024 size_bytes]? with
    | none => none
    | some name =>
        some (round2 ((size_bytes : ℚ) / 1024 ^ Nat.log 1024 size_bytes),
              escape_markdown_v2 name)

/-- Model of the read/write loop of split_file (bot.py lines 234-243) in the
failure-free case: repeatedly read a block of at most L bytes and emit it as a
part, stopping when the read returns no bytes. Python f.read(0) returns an empty
chunk, so a zero block size also stops the loop at once. -/
def splitFile (data : List Nat) (L : Nat) : List (List Nat) :=
  if h : L = 0 ∨ data = [] then []
  else data.take L :: splitFile (data.drop L) L
  termination_by data.length
  decreasing_by
    have h1 : L ≠ 0 := fun hL => h (Or.inl hL)
    have h2 : data ≠ [] := fun hd => h (Or.inr hd)
    have h3 := List.length_pos.mpr h2
    simp only [List.length_drop]
    omega

/-- Loop body of split_file (bot.py lines 227-251) with an explicit disk and
failure oracles. State: remaining input bytes, the next part number, the parts
list accumulated by the loop, and the disk (the part numbers whose files exist).
Reading block number k raises when readFails k; writing part k raises when
writeFails k. Opening a part file with mode wb creates it on disk before the
write runs. The except branch (lines 246-251) deletes exactly the files recorded
in the parts list and returns an empty list. -/
def splitGo (L : Nat) (readFails writeFails : Nat → Bool)
    (data : List Nat) (part_num : Nat) (parts disk : List Nat) :
    List Nat × List Nat :=
  if readFails part_num then
    ([], disk.filter (fun p => !(parts.contains p)))
  else if h : L = 0 ∨ data = [] then (parts, disk)
  else if writeFails part_num then
    ([], (disk ++ [part_num]).filter (fun p => !(parts.contains p)))
  else
    splitGo L readFails writeFails (data.drop L) (part_num + 1)
      (parts ++ [part_num]) (disk ++ [part_num])
  termination_by data.length
  decreasing_by
    have h1 : L ≠ 0 := fun hL => h (Or.inl hL)
    have h2 : data ≠ [] := fun hd => h (Or.inr hd)
    have h3 := List.length_pos.mpr h2
    simp only [List.length_drop]
    omega

/-- Model of a run of split_file (bot.py lines 227-251) from its entry point:
part numbering starts at 1, the parts list and the disk start empty. Returns the
Python return value (the parts list, empty on failure) together with the final
disk contents. -/
def split_file_run (data : List Nat) (L : Nat)
    (readFails writeFails : Nat → Bool) : List Nat × List Nat :=
  splitGo L readFails writeFails data 1 [] []

/-- Model of cleanup_files (bot.py lines 253-261) against a filesystem given as
the list of existing paths. Python varargs may receive None (falsy, skipped) or
an empty string (also falsy); an existing file is removed; a missing file is
skipped; os.remove errors are caught, so the function is total. -/
def cleanup_files (fs : List String) (filepaths : List (Option String)) : List String :=
  filepaths.foldl (fun acc fp =>
    match fp with
    | none => acc
    | some p =>
        if p = "" then acc
        else if acc.contains p then acc.filter (fun q => q ≠ p)
        else acc) fs

/-- Survival predicate used to characterize cleanup_files: a path q keeps
existing exactly when no truthy argument names it. -/
def survives (paths : List (Option String)) (q : String) : Bool :=
  paths.all (fun fp =>
    match fp with
    | none => true
    | some p => p == "" || !(q == p))

/-- Mutable state of TelegramRateLimiter (bot.py lines 46-50). -/
structure RateLimiterState where
  message_count : Nat
  last_minute : Nat
  messages_per_minute : Nat
deriving DecidableEq

/-- Window roll of wait_if_needed (bot.py lines 53-56): when the current wall-clock
minute is past last_minute, the per-minute counter is reset and the window start
advances. Time is measured in deciseconds, so a minute is 600 ticks. -/
def rollWindow (rl : RateLimiterState) (cur : Nat) : RateLimiterState :=
  if rl.last_minute < cur
  then { rl with messages_per_minute := 0, last_minute := cur }
  else rl

/-- Counter increments of wait_if_needed (bot.py lines 57-58). -/
def countCall (rl : RateLimiterState) : RateLimiterState :=
  { rl with message_count := rl.message_count + 1,
            messages_per_minute := rl.messages_per_minute + 1 }

/-- Scheduler event for the rate limiter model: a task enters wait_if_needed at
time t, or a caller suspended at the ceiling resumes at time t. Times are in
deciseconds of wall clock. -/
inductive LimiterEvent where
  | enter (t : Nat)
  | wake (t : Nat)
deriving DecidableEq

/-- Global state of a run of interleaved wait_if_needed calls: the limiter state,
the FIFO of wake deadlines of callers suspended at the ceiling, the wall clock of
the last event, and the times at which outbound calls were issued (a caller
issues its outbound call when wait_if_needed returns). -/
structure LimiterRun where
  rl : RateLimiterState
  sleepers : List Nat
  now : Nat
  calls : List Nat
deriving DecidableEq

/-- Initial state, from TelegramRateLimiter.__init__ (bot.py lines 47-50). -/
def initLimiterRun (t0 : Nat) : LimiterRun :=
  { rl := { message_count := 0, last_minute := t0 / 600, messages_per_minute := 0 },
    sleepers := [], now := t0, calls := [] }

/-- One atomic scheduler step (bot.py lines 52-68). An enter event runs the
non-suspending body of wait_if_needed at time t: roll the window, count the call,
then either suspend until the next minute boundary (counter at the ceiling 1200,
line 59: the call is not issued now), or sleep 1s (every 20th call), or sleep
0.2s (every 5th call), or return at once; in the non-ceiling cases the outbound
call is issued when the sleep ends. A wake event resumes the oldest ceiling
sleeper at any time at or past its deadline (lines 62-64): it zeroes the counter,
moves the window start, and issues its outbound call. Events that cannot occur
(time going backwards, waking with no sleeper) yield none. -/
def limiterStep (s : LimiterRun) (e : LimiterEvent) : Option LimiterRun :=
  match e with
  | .enter t =>
      if t < s.now then none else
      let rl2 := countCall (rollWindow s.rl (t / 600))
      if 1200 ≤ rl2.messages_per_minute then
        some { rl := rl2, sleepers := s.sleepers ++ [(t / 600 + 1) * 600],
               now := t, calls := s.calls }
      else if rl2.message_count % 20 = 0 then
        some { rl := rl2, sleepers := s.sleepers, now := t, calls := (t + 10) :: s.calls }
      else if rl2.message_count % 5 = 0 then
        some { rl := rl2, sleepers := s.sleepers, now := t, calls := (t + 2) :: s.calls }
      else
        some { rl := rl2, sleepers := s.sleepers, now := t, calls := t :: s.calls }
  | .wake t =>
      match s.sleepers with
      | [] => none
      | d :: rest =>
          if t < d ∨ t < s.now then none else
          some { rl := { s.rl with messages_per_minute := 0, last_minute := t / 600 },
                 sleepers := rest, now := t, calls := t :: s.calls }

/-- Run of an event schedule from a given state. -/
def runFrom (s : LimiterRun) (events : List LimiterEvent) : Option LimiterRun :=
  events.foldl (fun acc e => acc.bind (fun s2 => limiterStep s2 e)) (some s)

/-- Run of a whole event schedule from the initial state. -/
def limiterRun (t0 : Nat) (events : List LimiterEvent) : Option LimiterRun :=
  runFrom (initLimiterRun t0) events

/-- Number of outbound calls a finished run issued during wall-clock minute m. -/
def callsInMinute (r : Option LimiterRun) (m : Nat) : Nat :=
  match r with
  | none => 0
  | some s => (s.calls.filter (fun t => t / 600 = m)).length

/-- Schedule exhibiting two concurrent ceiling sleepers: 1201 calls enter during
minute 0 (the last two suspend at the ceiling), both sleepers wake at the minute
boundary, and 1199 further calls enter during minute 1. -/
def c5Events : List LimiterEvent :=
  List.replicate 1201 (LimiterEvent.enter 0) ++ [LimiterEvent.wake 600, LimiterEvent.wake 600]
    ++ List.replicate 1199 (LimiterEvent.enter 600)

/-- Decision of whether a percentage event is acted on by progress_hook
(bot.py line 127): the Python test percent % 10 == 0 holds exactly when the
value is an integer multiple of 10, i.e. when it is an integer whose numerator
10 divides. Percentage events are modelled as the exact rational values parsed. -/
def actsOnPercent (p : ℚ) : Bool := p.den == 1 && p.num % 10 == 0

/-- Model of the edits issued by progress_hook (bot.py lines 119-139) for a
sequence of parsed percentage events: every event passing the multiple-of-ten
test triggers one rate-limited status edit carrying that percentage; the hook
keeps no record of which percentages were already reported. -/
def progress_hook_edits : List ℚ → List ℚ
  | [] => []
  | p :: rest =>
      if actsOnPercent p then p :: progress_hook_edits rest
      else progress_hook_edits rest

/-- Read failure oracle under which no read fails. -/
def noFailure : Nat → Bool := fun _ => false

/-- Write failure oracle under which exactly the write of part 2 fails. -/
def failAtTwo : Nat → Bool := fun k => k == 2

/-- Write failure oracle under which exactly the write of part 1 fails. -/
def failAtOne : Nat → Bool := fun k => k == 1

/-- Video metadata consumed by handle_message (bot.py lines 338-340). -/
structure VideoInfo where
  title : String
  duration : Nat
  filesize_approx : Nat
deriving DecidableEq

/-- Externally visible actions of handle_message (bot.py lines 299-406), one
constructor per outbound call or state mutation, in source order:
rate_wait is a rate_limiter.wait_if_needed call; reply_invalid_url is the
corrective reply of line 305; reply_status creates the status message (line 312);
edit_status_deps_error, edit_status_info_error, edit_status_download_error and
edit_status_send_error are the failure edits of lines 319, 330, 358 and 380;
get_video_info_call and download_video_call are the acquisition operations of
lines 327 and 355; edit_status_info is the metadata edit of line 343; reply_video
is the direct delivery of line 370; cleanup is the cleanup_files call of lines
376 and 386; delete_status is the deletion of line 377; offer_split_keyboard is
the keyboard edit of line 396; set_state_waiting_for_split and
update_data_filepath are the FSM mutations of lines 405-406. -/
inductive BotAction where
  | rate_wait
  | reply_invalid_url
  | reply_status
  | edit_status_deps_error
  | get_video_info_call
  | edit_status_info_error
  | edit_status_info (title : String)
  | download_video_call
  | edit_status_download_error
  | reply_video
  | cleanup
  | delete_status
  | edit_status_send_error
  | offer_split_keyboard
  | set_state_waiting_for_split
  | update_data_filepath (filepath : String)
deriving DecidableEq

/-- Model of handle_message (bot.py lines 299-406) as the trace of its actions.
External oracles: depsOk is the check_dependencies result (line 317; the inner
check of get_video_info line 143 is folded into the info oracle), info is the
get_video_info result, downloadResult is the (filepath, filesize) pair of
download_video (none models the (None, 0) failure return), sendOk tells whether
the direct reply_video send raises. -/
def handle_message (url : String) (depsOk : Bool) (info : Option VideoInfo)
    (downloadResult : Option (String × Nat)) (sendOk : Bool) : List BotAction :=
  if ¬ is_youtube_url url then [.rate_wait, .reply_invalid_url]
  else
    [BotAction.rate_wait, BotAction.reply_status] ++
    (if ¬ depsOk then [BotAction.rate_wait, BotAction.edit_status_deps_error]
     else
      BotAction.get_video_info_call ::
      (match info with
       | none => [BotAction.rate_wait, BotAction.edit_status_info_error]
       | some vi =>
         [BotAction.rate_wait, BotAction.edit_status_info vi.title, BotAction.download_video_call] ++
         (match downloadResult with
          | none => [BotAction.rate_wait, BotAction.edit_status_download_error]
          | some (filepath, filesize) =>
            if filesize ≤ MAX_FILE_SIZE then
              BotAction.rate_wait ::
              (if sendOk then [BotAction.reply_video, BotAction.cleanup, BotAction.delete_status]
               else [BotAction.edit_status_send_error, BotAction.cleanup])
            else
              [BotAction.rate_wait, BotAction.offer_split_keyboard,
               BotAction.set_state_waiting_for_split, BotAction.update_data_filepath filepath])))

/-- Externally visible actions of the part delivery loop of handle_callback
(bot.py lines 458-489): sent_video i is a successful send_video of part i
(line 462); error_message i is the per-part failure message of line 470, sent
when the primary send of part i raises; sent_document i is a successful fallback
send_document of part i (line 478; its own failure is only logged); cleanup_all
and delete_status_msg are the terminal cleanup_files and delete_message calls of
lines 487-488. -/
inductive DeliveryAction where
  | sent_video (i : Nat)
  | error_message (i : Nat)
  | fallback_attempt (i : Nat)
  | sent_document (i : Nat)
  | cleanup_all
  | delete_status_msg
deriving DecidableEq

/-- Delivery of parts i, i+1, ..., n in order (loop body of bot.py lines
459-485). primaryFails i tells whether send_video of part i raises; fallbackFails
i tells whether the fallback send_document of part i raises. A primary failure
always produces the error message and then one fallback_attempt (the
send_document call of line 478); the attempt additionally yields sent_document
when it does not raise. -/
def deliverFrom (primaryFails fallbackFails : Nat → Bool) : Nat → Nat → List DeliveryAction
  | _, 0 => []
  | i, remaining + 1 =>
      (if primaryFails i then
        DeliveryAction.error_message i :: DeliveryAction.fallback_attempt i ::
          (if fallbackFails i then [] else [DeliveryAction.sent_document i])
       else [DeliveryAction.sent_video i]) ++
      deliverFrom primaryFails fallbackFails (i + 1) remaining

/-- Model of the delivery phase of handle_callback for a plan of n parts
(bot.py lines 458-489): parts are delivered in ascending order starting at 1,
then cleanup and status-message deletion always run. -/
def deliver_parts (n : Nat) (primaryFails fallbackFails : Nat → Bool) : List DeliveryAction :=
  deliverFrom primaryFails fallbackFails 1 n
    ++ [DeliveryAction.cleanup_all, DeliveryAction.delete_status_msg]

/-- Part indices the user is told failed: those with an error_message action.
The per-part error message of line 470 is the only user-visible failure report
handle_callback produces. -/
def reportedAsFailed (n : Nat) (primaryFails fallbackFails : Nat → Bool) : List Nat :=
  (List.range n).filterMap (fun idx =>
    if (deliver_parts n primaryFails fallbackFails).contains (DeliveryAction.error_message (idx + 1))
    then some (idx + 1) else none)

/-- Part indices actually delivered by no transfer mode: primary and fallback
both raised. -/
def undeliveredParts (n : Nat) (primaryFails fallbackFails : Nat → Bool) : List Nat :=
  (List.range n).filterMap (fun idx =>
    if primaryFails (idx + 1) && fallbackFails (idx + 1) then some (idx + 1) else none)

/-- Contents of the single status message in the ordering model. -/
inductive MsgContent where
  | initial
  | progressText (p : ℚ)
  | terminalText
deriving DecidableEq

/-- Interleaving state of the progress_hook task (bot.py lines 119-139) and the
main handler flow that commits the terminal edit after the download process
exits: alive is process.poll() is None; pending holds a percentage for which the
hook has passed its guards (line 121 and line 127) and is suspended before its
edit_message_text applies; message is the status-message content;
terminalCommitted records that the terminal edit ran. -/
structure HookState where
  alive : Bool
  pending : Option ℚ
  message : MsgContent
  terminalCommitted : Bool
deriving DecidableEq

/-- Initial interleaving state: process running, no pending edit. -/
def initHookState : HookState :=
  { alive := true, pending := none, message := MsgContent.initial,
    terminalCommitted := false }

/-- Atomic interleaving events: begin_progress p is the hook passing the
process-alive check and the multiple-of-ten check for percentage p, then
suspending at the rate limiter (bot.py line 128) before its edit applies;
apply_progress is the suspended edit_message_text of line 129 finally running;
proc_exit is the download process terminating; commit_terminal is the main
flow's terminal edit, which in handle_message runs only after
process.communicate() returns, hence only once the process has exited. -/
inductive HookEvent where
  | begin_progress (p : ℚ)
  | apply_progress
  | proc_exit
  | commit_terminal
deriving DecidableEq

/-- One interleaving step. Events whose guards do not hold leave the state
unchanged: the hook starts no edit once the process has exited (the while
condition of line 121 fails), an apply with nothing pending does nothing, and
the terminal edit cannot run before the process exits. -/
def hookStep (s : HookState) (e : HookEvent) : HookState :=
  match e with
  | .begin_progress p =>
      if s.alive && s.pending.isNone && actsOnPercent p
      then { s with pending := some p } else s
  | .apply_progress =>
      match s.pending with
      | none => s
      | some p => { s with pending := none, message := MsgContent.progressText p }
  | .proc_exit => { s with alive := false }
  | .commit_terminal =>
      if s.alive then s
      else { s with message := MsgContent.terminalText, terminalCommitted := true }

/-- Run of an interleaving from the initial state. -/
def hookRun (events : List HookEvent) : HookState :=
  events.foldl hookStep initHookState

/-- Interleaving in which the hook passes its guards for percentage 50 and
suspends, the download process then exits, the main flow commits the terminal
edit, and only then the suspended progress edit is applied. -/
def c8Trace : List HookEvent :=
  [HookEvent.begin_progress 50, HookEvent.proc_exit,
   HookEvent.commit_terminal, HookEvent.apply_progress]

/-
Theorems.
-/

theorem cleanup_files_nil (fs : List String) : cleanup_files fs [] = fs := rfl

theorem cleanup_files_cons_none (fs : List String) (rest : List (Option String)) :
    cleanup_files fs (none :: rest) = cleanup_files fs rest := rfl

theorem cleanup_files_cons_some (fs : List String) (p : String)
    (rest : List (Option String)) :
    cleanup_files fs (some p :: rest) =
      cleanup_files
        (if p = "" then fs
         else if fs.contains p then fs.filter (fun q => q ≠ p) else fs) rest := rfl

theorem cleanup_files_step (fs : List String) (p : String) :
    (if fs.contains p then fs.filter (fun q => q ≠ p) else fs)
      = fs.filter (fun q => q ≠ p) := by
  by_cases h : fs.contains p = true
  · rw [if_pos h]
  · rw [if_neg h]
    refine (List.filter_eq_self.mpr ?_).symm
    intro a ha
    have hp : p ∉ fs := fun hmem => h (List.elem_iff.mpr hmem)
    simp only [ne_eq, decide_eq_true_eq]
    exact fun hap => hp (hap ▸ ha)

theorem cleanup_files_eq_filter (paths : List (Option String)) :
    ∀ fs : List String, cleanup_files fs paths = fs.filter (survives paths) := by
  induction paths with
  | nil =>
      intro fs
      rw [cleanup_files_nil]
      exact (List.filter_eq_self.mpr (fun a _ => rfl)).symm
  | cons fp rest ih =>
      intro fs
      match fp with
      | none =>
          rw [cleanup_files_cons_none, ih fs]
          apply List.filter_congr
          intro q _
          simp [survives]
      | some p =>
          rw [cleanup_files_cons_some]
          by_cases hp : p = ""
          · rw [if_pos hp, ih fs]
            apply List.filter_congr
            intro q _
            subst hp
            simp [survives]
          · rw [if_neg hp, cleanup_files_step fs p, ih, List.filter_filter]
            apply List.filter_congr
            intro q _
            by_cases hq : q = p <;> simp [survives, hp, hq]

/-- C4: cleanup is idempotent and total. For every filesystem and every argument
list of paths (existing files, missing files, None, or duplicates), running
cleanup_files twice equals running it once (no error is possible: the model is a
total function because Python skips falsy and missing paths and catches
os.remove errors), and after each call no named (truthy) path still exists. -/
theorem C4_cleanup_idempotent_total (fs : List String) (paths : List (Option String)) :
    cleanup_files (cleanup_files fs paths) paths = cleanup_files fs paths
    ∧ (∀ p : String, some p ∈ paths → p ≠ "" → p ∉ cleanup_files fs paths) := by
  constructor
  · rw [cleanup_files_eq_filter, cleanup_files_eq_filter, List.filter_filter]
    apply List.filter_congr
    intro q _
    rw [Bool.and_self]
  · intro p hmem hne hcontra
    rw [cleanup_files_eq_filter] at hcontra
    have hsurv : survives paths p = true := (List.mem_filter.mp hcontra).2
    have : p == "" || !(p == p) := by
      have := List.all_eq_true.mp hsurv (some p) hmem
      simpa using this
    simp [hne] at this

/-- Witness for C4 at a concrete input: files a and b exist, cleanup is asked to
delete a, a missing path c, None, and the empty string; a is gone after one call
and a second call changes nothing. -/
theorem C4_witness :
    cleanup_files (cleanup_files ["a", "b"] [some "a", some "c", none, some ""])
        [some "a", some "c", none, some ""]
      = cleanup_files ["a", "b"] [some "a", some "c", none, some ""]
    ∧ "a" ∉ cleanup_files ["a", "b"] [some "a", some "c", none, some ""] := by
  refine ⟨(C4_cleanup_idempotent_total ["a", "b"] [some "a", some "c", none, some ""]).1, ?_⟩
  exact (C4_cleanup_idempotent_total ["a", "b"] [some "a", some "c", none, some ""]).2
    "a" (by simp) (by decide)

/-- C10: format_filesize is total exactly on sizes below 1024 to the fourth
power: size 0 is special-cased to the escaped string 0 B (the logarithm is never
taken), for 1 <= s < 1024 ^ 4 the unit index Nat.log 1024 s is at most 3 so the
lookup into the four-entry unit table succeeds, and for s >= 1024 ^ 4 the index
falls outside the table (Python raises IndexError, modelled as none). -/
theorem C10_format_filesize_domain (s : Nat) :
    format_filesize 0 = some (0, "0 B")
    ∧ (1 ≤ s → s < 1024 ^ 4 →
        Nat.log 1024 s ≤ 3 ∧ (format_filesize s).isSome = true)
    ∧ (1024 ^ 4 ≤ s → format_filesize s = none) := by
  refine ⟨by decide, fun h1 h2 => ?_, fun h4 => ?_⟩
  · have hlog : Nat.log 1024 s < 4 :=
      (Nat.lt_pow_iff_log_lt (by norm_num) (by omega)).mp h2
    refine ⟨by omega, ?_⟩
    have hlt : Nat.log 1024 s < size_names.length := by
      simp only [size_names, List.length_cons, List.length_nil]
      omega
    rw [format_filesize, if_neg (by omega), List.getElem?_eq_getElem hlt]
    rfl
  · have hs0 : s ≠ 0 := by
      intro h
      rw [h] at h4
      simp at h4
    have hlog : 4 ≤ Nat.log 1024 s :=
      (Nat.pow_le_iff_le_log (by norm_num) hs0).mp h4
    have hge : size_names.length ≤ Nat.log 1024 s := by
      simp only [size_names, List.length_cons, List.length_nil]
      omega
    rw [format_filesize, if_neg hs0, List.getElem?_eq_none hge]

/-- Witness for C10 at concrete inputs: size 5 is formatted, size 1024 ^ 4 is
out of the table. -/
theorem C10_witness :
    (format_filesize 5).isSome = true ∧ format_filesize (1024 ^ 4) = none := by
  exact ⟨((C10_format_filesize_domain 5).2.1 (by norm_num) (by norm_num)).2,
    (C10_format_filesize_domain (1024 ^ 4)).2.2 (le_refl _)⟩

/-- C2: the size comparison deciding split versus direct delivery is inclusive.
For every downloaded file of size S, if S is at most MAX_FILE_SIZE the handler
proceeds to direct delivery (no split keyboard is offered and the
awaiting-split-confirmation state is never entered; when the send succeeds the
video is sent directly), and for any S above the limit, in particular
MAX_FILE_SIZE + 1, the handler offers the split keyboard and enters the
waiting_for_split state without sending the video directly. -/
theorem C2_size_comparison_inclusive (url filepath : String) (vi : VideoInfo)
    (S : Nat) (sendOk : Bool) (hurl : is_youtube_url url = true) :
    (S ≤ MAX_FILE_SIZE →
        BotAction.set_state_waiting_for_split
            ∉ handle_message url true (some vi) (some (filepath, S)) sendOk
        ∧ BotAction.offer_split_keyboard
            ∉ handle_message url true (some vi) (some (filepath, S)) sendOk
        ∧ (sendOk = true →
            BotAction.reply_video
              ∈ handle_message url true (some vi) (some (filepath, S)) sendOk))
    ∧ (MAX_FILE_SIZE < S →
        BotAction.set_state_waiting_for_split
            ∈ handle_message url true (some vi) (some (filepath, S)) sendOk
        ∧ BotAction.offer_split_keyboard
            ∈ handle_message url true (some vi) (some (filepath, S)) sendOk
        ∧ BotAction.reply_video
            ∉ handle_message url true (some vi) (some (filepath, S)) sendOk) := by
  constructor
  · intro hS
    refine ⟨?_, ?_, ?_⟩
    · cases sendOk <;> simp [handle_message, hurl, if_pos hS]
    · cases sendOk <;> simp [handle_message, hurl, if_pos hS]
    · intro hsend
      subst hsend
      simp [handle_message, hurl, if_pos hS]
  · intro hS
    have hS' : ¬ S ≤ MAX_FILE_SIZE := by omega
    refine ⟨?_, ?_, ?_⟩ <;> simp [handle_message, hurl, if_neg hS']

/-- Witness for C2 at a concrete input: a file of exactly MAX_FILE_SIZE bytes is
delivered directly and never triggers the split offer, while a file of
MAX_FILE_SIZE + 1 bytes enters the awaiting-split-confirmation state. -/
theorem C2_witness :
    BotAction.set_state_waiting_for_split
        ∉ handle_message "https://youtu.be/a" true (some ⟨"t", 10, 100⟩)
            (some ("f.mp4", MAX_FILE_SIZE)) true
    ∧ BotAction.reply_video
        ∈ handle_message "https://youtu.be/a" true (some ⟨"t", 10, 100⟩)
            (some ("f.mp4", MAX_FILE_SIZE)) true
    ∧ BotAction.set_state_waiting_for_split
        ∈ handle_message "https://youtu.be/a" true (some ⟨"t", 10, 100⟩)
            (some ("f.mp4", MAX_FILE_SIZE + 1)) true := by
  refine ⟨((C2_size_comparison_inclusive "https://youtu.be/a" "f.mp4" ⟨"t", 10, 100⟩
      MAX_FILE_SIZE true (by decide)).1 (le_refl _)).1,
    (((C2_size_comparison_inclusive "https://youtu.be/a" "f.mp4" ⟨"t", 10, 100⟩
      MAX_FILE_SIZE true (by decide)).1 (le_refl _)).2.2 rfl),
    ((C2_size_comparison_inclusive "https://youtu.be/a" "f.mp4" ⟨"t", 10, 100⟩
      (MAX_FILE_SIZE + 1) true (by decide)).2 (by omega)).1⟩

/-- C9: an input whose text fails is_youtube_url is rejected immediately: the
handler's whole trace is one rate-limited corrective reply, so no status message
is created, no probe (get_video_info) or fetch (download_video) is attempted,
and no session state is set, regardless of every other oracle. -/
theorem C9_invalid_reference_rejected (url : String) (depsOk : Bool)
    (info : Option VideoInfo) (downloadResult : Option (String × Nat))
    (sendOk : Bool) (h : is_youtube_url url = false) :
    handle_message url depsOk info downloadResult sendOk
        = [BotAction.rate_wait, BotAction.reply_invalid_url]
    ∧ BotAction.get_video_info_call ∉ handle_message url depsOk info downloadResult sendOk
    ∧ BotAction.download_video_call ∉ handle_message url depsOk info downloadResult sendOk
    ∧ BotAction.reply_status ∉ handle_message url depsOk info downloadResult sendOk
    ∧ BotAction.set_state_waiting_for_split
        ∉ handle_message url depsOk info downloadResult sendOk := by
  have heq : handle_message url depsOk info downloadResult sendOk
      = [BotAction.rate_wait, BotAction.reply_invalid_url] := by
    simp [handle_message, h]
  refine ⟨heq, ?_, ?_, ?_, ?_⟩ <;> rw [heq] <;> simp

/-- Witness for C9 at a concrete input: the text hello is not a YouTube
reference and yields only the corrective reply. -/
theorem C9_witness :
    handle_message "hello" true none none true
      = [BotAction.rate_wait, BotAction.reply_invalid_url] :=
  (C9_invalid_reference_rejected "hello" true none none true (by decide)).1

/-- C6 fails on the code: progress_hook keeps no record of which
ten-percent buckets were already reported, so eleven repeated events of 50
percent each trigger an edit, which both repeats an already-reported multiple of
10 and exceeds the claimed bound of at most 10 edits per job. -/
theorem C6_counterexample :
    (progress_hook_edits (List.replicate 11 (50 : ℚ))).length = 11
    ∧ ¬ (progress_hook_edits (List.replicate 11 (50 : ℚ))).length ≤ 10 := by
  decide

/-- C6 amended: a status edit is issued for every parsed percentage event that
is an exact multiple of 10, with no memory of buckets already reported: each
such event, duplicates included, triggers one more edit, so the number of edits
equals the number of multiple-of-ten events and is not bounded by 10 (a run of n
events of 50 percent issues n edits). -/
theorem C6_amended_every_multiple_edits (events : List ℚ) :
    (progress_hook_edits events).length = events.countP actsOnPercent
    ∧ (∀ p ∈ events, actsOnPercent p = true → p ∈ progress_hook_edits events)
    ∧ (∀ n : Nat, (progress_hook_edits (List.replicate n (50 : ℚ))).length = n) := by
  refine ⟨?_, ?_, ?_⟩
  · induction events with
    | nil => rfl
    | cons p rest ih =>
        by_cases hp : actsOnPercent p = true
        · simp [progress_hook_edits, hp, ih, List.countP_cons]
        · simp [progress_hook_edits, hp, ih, List.countP_cons]
  · intro p hp hacts
    induction events with
    | nil => cases hp
    | cons q rest ih =>
        rcases List.mem_cons.mp hp with hq | hq
        · subst hq
          simp [progress_hook_edits, hacts]
        · by_cases hq2 : actsOnPercent q = true
          · simp only [progress_hook_edits, hq2, if_pos]
            exact List.mem_cons_of_mem q (ih hq)
          · simp only [progress_hook_edits, hq2, if_neg, Bool.false_eq_true,
              not_false_eq_true, if_neg]
            exact ih hq
  · intro n
    induction n with
    | zero => rfl
    | succ m ih =>
        simp only [List.replicate_succ, progress_hook_edits, show actsOnPercent 50 = true
          from rfl, if_pos, List.length_cons, ih]

/-- Witness for C6 amended at a concrete input: of the events 50 and 55 only 50
is a multiple of ten, and it is among the issued edits. -/
theorem C6_amended_witness :
    (progress_hook_edits [(50 : ℚ), 55]).length = [(50 : ℚ), 55].countP actsOnPercent
    ∧ (50 : ℚ) ∈ progress_hook_edits [(50 : ℚ), 55] :=
  ⟨(C6_amended_every_multiple_edits [(50 : ℚ), 55]).1,
    (C6_amended_every_multiple_edits [(50 : ℚ), 55]).2.1 50 (by decide) (by decide)⟩

theorem deliverFrom_count_error (pf ff : Nat → Bool) :
    ∀ rem start i, (deliverFrom pf ff start rem).count (DeliveryAction.error_message i)
      = if start ≤ i ∧ i < start + rem ∧ pf i = true then 1 else 0 := by
  intro rem
  induction rem with
  | zero =>
      intro start i
      rw [if_neg (by rintro ⟨a, b, c⟩; omega)]
      rfl
  | succ rem ih =>
      intro start i
      have hrest := ih (start + 1) i
      by_cases hpf : pf start = true
      · have hblock : deliverFrom pf ff start (rem + 1)
            = DeliveryAction.error_message start :: DeliveryAction.fallback_attempt start ::
              ((if ff start = true then [] else [DeliveryAction.sent_document start])
                ++ deliverFrom pf ff (start + 1) rem) := by
          simp [deliverFrom, hpf]
        rw [hblock]
        by_cases hi : i = start
        · subst hi
          rw [if_neg (by rintro ⟨a, b, c⟩; omega)] at hrest
          by_cases hff : ff i = true <;>
            simp [List.count_cons, List.count_append, hrest, hff, hpf]
        · have hcond : (start + 1 ≤ i ∧ i < start + 1 + rem ∧ pf i = true)
              ↔ (start ≤ i ∧ i < start + (rem + 1) ∧ pf i = true) := by
            constructor
            · rintro ⟨a, b, c⟩
              exact ⟨by omega, by omega, c⟩
            · rintro ⟨a, b, c⟩
              exact ⟨by omega, by omega, c⟩
          rw [if_congr hcond rfl rfl] at hrest
          by_cases hff : ff start = true <;>
            simp [List.count_cons, List.count_append, hrest, hff, hi]
      · have hblock : deliverFrom pf ff start (rem + 1)
            = DeliveryAction.sent_video start :: deliverFrom pf ff (start + 1) rem := by
          simp [deliverFrom, hpf]
        rw [hblock]
        have hpf2 : pf start = false := by
          revert hpf
          cases pf start <;> simp
        by_cases hi : i = start
        · subst hi
          rw [if_neg (by rintro ⟨a, b, c⟩; omega)] at hrest
          simp [List.count_cons, hrest, hpf2]
        · have hcond : (start + 1 ≤ i ∧ i < start + 1 + rem ∧ pf i = true)
              ↔ (start ≤ i ∧ i < start + (rem + 1) ∧ pf i = true) := by
            constructor
            · rintro ⟨a, b, c⟩
              exact ⟨by omega, by omega, c⟩
            · rintro ⟨a, b, c⟩
              exact ⟨by omega, by omega, c⟩
          rw [if_congr hcond rfl rfl] at hrest
          simp [List.count_cons, hrest, hi]

theorem deliverFrom_count_fallback (pf ff : Nat → Bool) :
    ∀ rem start i, (deliverFrom pf ff start rem).count (DeliveryAction.fallback_attempt i)
      = if start ≤ i ∧ i < start + rem ∧ pf i = true then 1 else 0 := by
  intro rem
  induction rem with
  | zero =>
      intro start i
      rw [if_neg (by rintro ⟨a, b, c⟩; omega)]
      rfl
  | succ rem ih =>
      intro start i
      have hrest := ih (start + 1) i
      by_cases hpf : pf start = true
      · have hblock : deliverFrom pf ff start (rem + 1)
            = DeliveryAction.error_message start :: DeliveryAction.fallback_attempt start ::
              ((if ff start = true then [] else [DeliveryAction.sent_document start])
                ++ deliverFrom pf ff (start + 1) rem) := by
          simp [deliverFrom, hpf]
        rw [hblock]
        by_cases hi : i = start
        · subst hi
          rw [if_neg (by rintro ⟨a, b, c⟩; omega)] at hrest
          by_cases hff : ff i = true <;>
            simp [List.count_cons, List.count_append, hrest, hff, hpf]
        · have hcond : (start + 1 ≤ i ∧ i < start + 1 + rem ∧ pf i = true)
              ↔ (start ≤ i ∧ i < start + (rem + 1) ∧ pf i = true) := by
            constructor
            · rintro ⟨a, b, c⟩
              exact ⟨by omega, by omega, c⟩
            · rintro ⟨a, b, c⟩
              exact ⟨by omega, by omega, c⟩
          rw [if_congr hcond rfl rfl] at hrest
          by_cases hff : ff start = true <;>
            simp [List.count_cons, List.count_append, hrest, hff, hi]
      · have hblock : deliverFrom pf ff start (rem + 1)
            = DeliveryAction.sent_video start :: deliverFrom pf ff (start + 1) rem := by
          simp [deliverFrom, hpf]
        rw [hblock]
        have hpf2 : pf start = false := by
          revert hpf
          cases pf start <;> simp
        by_cases hi : i = start
        · subst hi
          rw [if_neg (by rintro ⟨a, b, c⟩; omega)] at hrest
          simp [List.count_cons, hrest, hpf2]
        · have hcond : (start + 1 ≤ i ∧ i < start + 1 + rem ∧ pf i = true)
              ↔ (start ≤ i ∧ i < start + (rem + 1) ∧ pf i = true) := by
            constructor
            · rintro ⟨a, b, c⟩
              exact ⟨by omega, by omega, c⟩
            · rintro ⟨a, b, c⟩
              exact ⟨by omega, by omega, c⟩
          rw [if_congr hcond rfl rfl] at hrest
          simp [List.count_cons, hrest, hi]

theorem deliverFrom_count_document (pf ff : Nat → Bool) :
    ∀ rem start i, (deliverFrom pf ff start rem).count (DeliveryAction.sent_document i)
      = if start ≤ i ∧ i < start + rem ∧ pf i = true ∧ ff i = false then 1 else 0 := by
  intro rem
  induction rem with
  | zero =>
      intro start i
      rw [if_neg (by rintro ⟨a, b, c⟩; omega)]
      rfl
  | succ rem ih =>
      intro start i
      have hrest := ih (start + 1) i
      by_cases hpf : pf start = true
      · have hblock : deliverFrom pf ff start (rem + 1)
            = DeliveryAction.error_message start :: DeliveryAction.fallback_attempt start ::
              ((if ff start = true then [] else [DeliveryAction.sent_document start])
                ++ deliverFrom pf ff (start + 1) rem) := by
          simp [deliverFrom, hpf]
        rw [hblock]
        by_cases hi : i = start
        · subst hi
          rw [if_neg (by rintro ⟨a, b, c⟩; omega)] at hrest
          by_cases hff : ff i = true <;>
            simp [List.count_cons, List.count_append, hrest, hff, hpf]
        · have hcond : (start + 1 ≤ i ∧ i < start + 1 + rem ∧ pf i = true ∧ ff i = false)
              ↔ (start ≤ i ∧ i < start + (rem + 1) ∧ pf i = true ∧ ff i = false) := by
            constructor
            · rintro ⟨a, b, c⟩
              exact ⟨by omega, by omega, c⟩
            · rintro ⟨a, b, c⟩
              exact ⟨by omega, by omega, c⟩
          rw [if_congr hcond rfl rfl] at hrest
          by_cases hff : ff start = true <;>
            simp [List.count_cons, List.count_append, hrest, hff, hi]
      · have hblock : deliverFrom pf ff start (rem + 1)
            = DeliveryAction.sent_video start :: deliverFrom pf ff (start + 1) rem := by
          simp [deliverFrom, hpf]
        rw [hblock]
        have hpf2 : pf start = false := by
          revert hpf
          cases pf start <;> simp
        by_cases hi : i = start
        · subst hi
          rw [if_neg (by rintro ⟨a, b, c⟩; omega)] at hrest
          simp [List.count_cons, hrest, hpf2]
        · have hcond : (start + 1 ≤ i ∧ i < start + 1 + rem ∧ pf i = true ∧ ff i = false)
              ↔ (start ≤ i ∧ i < start + (rem + 1) ∧ pf i = true ∧ ff i = false) := by
            constructor
            · rintro ⟨a, b, c⟩
              exact ⟨by omega, by omega, c⟩
            · rintro ⟨a, b, c⟩
              exact ⟨by omega, by omega, c⟩
          rw [if_congr hcond rfl rfl] at hrest
          simp [List.count_cons, hrest, hi]

theorem deliverFrom_count_video (pf ff : Nat → Bool) :
    ∀ rem start i, (deliverFrom pf ff start rem).count (DeliveryAction.sent_video i)
      = if start ≤ i ∧ i < start + rem ∧ pf i = false then 1 else 0 := by
  intro rem
  induction rem with
  | zero =>
      intro start i
      rw [if_neg (by rintro ⟨a, b, c⟩; omega)]
      rfl
  | succ rem ih =>
      intro start i
      have hrest := ih (start + 1) i
      by_cases hpf : pf start = true
      · have hblock : deliverFrom pf ff start (rem + 1)
            = DeliveryAction.error_message start :: DeliveryAction.fallback_attempt start ::
              ((if ff start = true then [] else [DeliveryAction.sent_document start])
                ++ deliverFrom pf ff (start + 1) rem) := by
          simp [deliverFrom, hpf]
        rw [hblock]
        by_cases hi : i = start
        · subst hi
          rw [if_neg (by rintro ⟨a, b, c⟩; omega)] at hrest
          by_cases hff : ff i = true <;>
            simp [List.count_cons, List.count_append, hrest, hff, hpf]
        · have hcond : (start + 1 ≤ i ∧ i < start + 1 + rem ∧ pf i = false)
              ↔ (start ≤ i ∧ i < start + (rem + 1) ∧ pf i = false) := by
            constructor
            · rintro ⟨a, b, c⟩
              exact ⟨by omega, by omega, c⟩
            · rintro ⟨a, b, c⟩
              exact ⟨by omega, by omega, c⟩
          rw [if_congr hcond rfl rfl] at hrest
          by_cases hff : ff start = true <;>
            simp [List.count_cons, List.count_append, hrest, hff, hi]
      · have hblock : deliverFrom pf ff start (rem + 1)
            = DeliveryAction.sent_video start :: deliverFrom pf ff (start + 1) rem := by
          simp [deliverFrom, hpf]
        rw [hblock]
        have hpf2 : pf start = false := by
          revert hpf
          cases pf start <;> simp
        by_cases hi : i = start
        · subst hi
          rw [if_neg (by rintro ⟨a, b, c⟩; omega)] at hrest
          simp [List.count_cons, hrest, hpf2]
        · have hcond : (start + 1 ≤ i ∧ i < start + 1 + rem ∧ pf i = false)
              ↔ (start ≤ i ∧ i < start + (rem + 1) ∧ pf i = false) := by
            constructor
            · rintro ⟨a, b, c⟩
              exact ⟨by omega, by omega, c⟩
            · rintro ⟨a, b, c⟩
              exact ⟨by omega, by omega, c⟩
          rw [if_congr hcond rfl rfl] at hrest
          simp [List.count_cons, hrest, hi]

/-- C7 fails on the code in its reporting conjunct: with two parts where the
primary send of part 2 fails but the document fallback succeeds, part 2 is in
fact delivered (sent_document 2 occurs), yet the user receives the per-part
failure message for part 2 — the only failure reporting the code produces — so
the job does not end with a report enumerating which part indices failed: the
reported indices differ from the actually undelivered indices. -/
theorem C7_counterexample :
    reportedAsFailed 2 failAtTwo noFailure ≠ undeliveredParts 2 failAtTwo noFailure
    ∧ DeliveryAction.error_message 2 ∈ deliver_parts 2 failAtTwo noFailure
    ∧ DeliveryAction.sent_document 2 ∈ deliver_parts 2 failAtTwo noFailure := by
  decide

/-- C7 amended: parts are delivered in ascending order and every part in range
is attempted (one part failing never aborts the rest); a part whose primary send
fails triggers exactly one error message and exactly one fallback attempt in the
alternate transfer mode (send_document), which also yields the document when it
does not raise; cleanup and the status-message deletion always terminate the
job. However the error message is emitted on primary failure even when the
fallback then succeeds, and no terminal report enumerates the finally
undelivered parts. -/
theorem C7_amended_per_part_policy (n : Nat) (pf ff : Nat → Bool) :
    (∀ i, 1 ≤ i → i ≤ n →
        DeliveryAction.sent_video i ∈ deliver_parts n pf ff
        ∨ DeliveryAction.error_message i ∈ deliver_parts n pf ff)
    ∧ (∀ i, (deliver_parts n pf ff).count (DeliveryAction.error_message i)
        = if 1 ≤ i ∧ i ≤ n ∧ pf i = true then 1 else 0)
    ∧ (∀ i, (deliver_parts n pf ff).count (DeliveryAction.fallback_attempt i)
        = if 1 ≤ i ∧ i ≤ n ∧ pf i = true then 1 else 0)
    ∧ (∀ i, (deliver_parts n pf ff).count (DeliveryAction.sent_document i)
        = if 1 ≤ i ∧ i ≤ n ∧ pf i = true ∧ ff i = false then 1 else 0)
    ∧ deliver_parts n pf ff = deliverFrom pf ff 1 n
        ++ [DeliveryAction.cleanup_all, DeliveryAction.delete_status_msg] := by
  have herr : ∀ i, (deliver_parts n pf ff).count (DeliveryAction.error_message i)
      = if 1 ≤ i ∧ i ≤ n ∧ pf i = true then 1 else 0 := by
    intro i
    rw [deliver_parts, List.count_append, deliverFrom_count_error]
    have : (1 ≤ i ∧ i < 1 + n ∧ pf i = true) ↔ (1 ≤ i ∧ i ≤ n ∧ pf i = true) := by
      constructor
      · rintro ⟨a, b, c⟩
        exact ⟨a, by omega, c⟩
      · rintro ⟨a, b, c⟩
        exact ⟨a, by omega, c⟩
    rw [if_congr this rfl rfl]
    simp [List.count_cons, List.count_nil]
  have hvid : ∀ i, (deliver_parts n pf ff).count (DeliveryAction.sent_video i)
      = if 1 ≤ i ∧ i ≤ n ∧ pf i = false then 1 else 0 := by
    intro i
    rw [deliver_parts, List.count_append, deliverFrom_count_video]
    have : (1 ≤ i ∧ i < 1 + n ∧ pf i = false) ↔ (1 ≤ i ∧ i ≤ n ∧ pf i = false) := by
      constructor
      · rintro ⟨a, b, c⟩
        exact ⟨a, by omega, c⟩
      · rintro ⟨a, b, c⟩
        exact ⟨a, by omega, c⟩
    rw [if_congr this rfl rfl]
    simp [List.count_cons, List.count_nil]
  refine ⟨?_, herr, ?_, ?_, rfl⟩
  · intro i h1 h2
    by_cases hpf : pf i = true
    · right
      rw [← List.count_pos_iff, herr, if_pos ⟨h1, h2, hpf⟩]
      omega
    · left
      have hpf2 : pf i = false := by
        revert hpf
        cases pf i <;> simp
      rw [← List.count_pos_iff, hvid, if_pos ⟨h1, h2, hpf2⟩]
      omega
  · intro i
    rw [deliver_parts, List.count_append, deliverFrom_count_fallback]
    have : (1 ≤ i ∧ i < 1 + n ∧ pf i = true) ↔ (1 ≤ i ∧ i ≤ n ∧ pf i = true) := by
      constructor
      · rintro ⟨a, b, c⟩
        exact ⟨a, by omega, c⟩
      · rintro ⟨a, b, c⟩
        exact ⟨a, by omega, c⟩
    rw [if_congr this rfl rfl]
    simp [List.count_cons, List.count_nil]
  · intro i
    rw [deliver_parts, List.count_append, deliverFrom_count_document]
    have : (1 ≤ i ∧ i < 1 + n ∧ pf i = true ∧ ff i = false)
        ↔ (1 ≤ i ∧ i ≤ n ∧ pf i = true ∧ ff i = false) := by
      constructor
      · rintro ⟨a, b, c⟩
        exact ⟨a, by omega, c⟩
      · rintro ⟨a, b, c⟩
        exact ⟨a, by omega, c⟩
    rw [if_congr this rfl rfl]
    simp [List.count_cons, List.count_nil]

/-- Witness for C7 amended at a concrete input: with two parts and the primary
send of part 2 failing (fallback succeeding), part 1 is sent as video or
reported, and part 2 receives exactly one error message and one fallback
attempt. -/
theorem C7_amended_witness :
    (DeliveryAction.sent_video 1 ∈ deliver_parts 2 failAtTwo noFailure
      ∨ DeliveryAction.error_message 1 ∈ deliver_parts 2 failAtTwo noFailure)
    ∧ (deliver_parts 2 failAtTwo noFailure).count (DeliveryAction.error_message 2) = 1
    ∧ (deliver_parts 2 failAtTwo noFailure).count (DeliveryAction.fallback_attempt 2) = 1 := by
  refine ⟨(C7_amended_per_part_policy 2 failAtTwo noFailure).1 1 (by decide) (by decide),
    ?_, ?_⟩
  · rw [(C7_amended_per_part_policy 2 failAtTwo noFailure).2.1 2, if_pos (by decide)]
  · rw [(C7_amended_per_part_policy 2 failAtTwo noFailure).2.2.1 2, if_pos (by decide)]

/-- C8 fails on the code: there is no sequence numbering of status-message
edits. In the interleaving c8Trace the hook passes its guards for the 50 percent
event while the download is still running, the process exits, the terminal edit
commits, and then the suspended progress edit is applied: the final message is
the progress text, not the terminal text, even though the terminal edit was
committed earlier. -/
theorem C8_counterexample :
    (hookRun c8Trace).terminalCommitted = true
    ∧ (hookRun c8Trace).message = MsgContent.progressText 50
    ∧ (hookRun c8Trace).message ≠ MsgContent.terminalText := by
  decide

/-- C8 amended: the only ordering the code enforces is the process-alive guard:
once the download process has exited, the hook initiates no new progress edit
(the begin_progress step is a no-op on a dead state). No ordering exists between
an already-initiated progress edit and the terminal edit: applying a pending
progress edit overwrites the message even when the terminal edit has already
been committed, and the committed flag stays set. -/
theorem C8_amended_no_ordering (s : HookState) (p : ℚ) :
    (s.alive = false → hookStep s (HookEvent.begin_progress p) = s)
    ∧ (s.pending = some p →
        (hookStep s HookEvent.apply_progress).message = MsgContent.progressText p
        ∧ (hookStep s HookEvent.apply_progress).terminalCommitted
            = s.terminalCommitted) := by
  constructor
  · intro hdead
    simp [hookStep, hdead]
  · intro hpend
    simp [hookStep, hpend]

/-- Witness for C8 amended at a concrete state: the process has exited, the
terminal edit is committed, and a progress edit for 50 percent is still pending;
initiating a new edit does nothing, while applying the pending one overwrites
the terminal message with the committed flag still set. -/
theorem C8_amended_witness :
    hookStep
        { alive := false, pending := some 50, message := MsgContent.terminalText,
          terminalCommitted := true } (HookEvent.begin_progress 60)
      = { alive := false, pending := some 50, message := MsgContent.terminalText,
          terminalCommitted := true }
    ∧ (hookStep
        { alive := false, pending := some 50, message := MsgContent.terminalText,
          terminalCommitted := true } HookEvent.apply_progress).message
      = MsgContent.progressText 50 :=
  ⟨(C8_amended_no_ordering
      { alive := false, pending := some 50, message := MsgContent.terminalText,
        terminalCommitted := true } 60).1 rfl,
    ((C8_amended_no_ordering
      { alive := false, pending := some 50, message := MsgContent.terminalText,
        terminalCommitted := true } 50).2 rfl).1⟩

theorem filter_not_contains_self (parts : List Nat) :
    parts.filter (fun p => !(parts.contains p)) = [] := by
  rw [List.filter_eq_nil_iff]
  intro a ha
  have hc : parts.contains a = true := List.elem_iff.mpr ha
  rw [hc]
  decide

theorem splitGo_outcome (L : Nat) (rf wf : Nat → Bool) :
    ∀ n data part_num parts, data.length = n → (∀ p ∈ parts, p < part_num) →
      ((splitGo L rf wf data part_num parts parts).1 ≠ [] →
          (splitGo L rf wf data part_num parts parts).2
            = (splitGo L rf wf data part_num parts parts).1)
      ∧ ((splitGo L rf wf data part_num parts parts).1 = [] →
          (splitGo L rf wf data part_num parts parts).2 = []
          ∨ ∃ k, (splitGo L rf wf data part_num parts parts).2 = [k] ∧ wf k = true) := by
  intro n
  induction n using Nat.strong_induction_on with
  | _ n ih =>
      intro data part_num parts hlen hbound
      rw [splitGo.eq_def]
      by_cases hr : rf part_num = true
      · simp only [hr, if_pos]
        refine ⟨fun h => absurd rfl h, fun _ => Or.inl ?_⟩
        exact filter_not_contains_self parts
      · by_cases hstop : L = 0 ∨ data = []
        · simp only [hr, Bool.false_eq_true, if_neg, dif_pos hstop]
          exact ⟨fun _ => rfl, fun h1 => Or.inl h1⟩
        · by_cases hw : wf part_num = true
          · simp only [hr, Bool.false_eq_true, if_neg, dif_neg hstop, hw, if_pos]
            have hnotmem : part_num ∉ parts := by
              intro hmem
              exact absurd (hbound part_num hmem) (by omega)
            have hfalse : parts.contains part_num = false := by
              cases h : parts.contains part_num
              · rfl
              · exact absurd (List.elem_iff.mp h) hnotmem
            have hdisk : (parts ++ [part_num]).filter (fun p => !(parts.contains p))
                = [part_num] := by
              rw [List.filter_append, filter_not_contains_self, List.nil_append,
                List.filter_cons_of_pos (by rw [hfalse]; rfl), List.filter_nil]
            refine ⟨fun h => absurd rfl h, fun _ => Or.inr ⟨part_num, hdisk, hw⟩⟩
          · simp only [hr, Bool.false_eq_true, if_neg, dif_neg hstop, hw]
            have hL : L ≠ 0 := fun h => hstop (Or.inl h)
            have hd : data ≠ [] := fun h => hstop (Or.inr h)
            have hlt : (data.drop L).length < n := by
              have := List.length_pos.mpr hd
              simp only [List.length_drop]
              omega
            have hbound2 : ∀ p ∈ parts ++ [part_num], p < part_num + 1 := by
              intro p hp
              rcases List.mem_append.mp hp with hp | hp
              · exact Nat.lt_succ_of_lt (hbound p hp)
              · rcases List.mem_singleton.mp hp with rfl
                exact Nat.lt_succ_self _
            exact ih (data.drop L).length hlt (data.drop L) (part_num + 1)
              (parts ++ [part_num]) rfl hbound2

/-- C3 fails on the code: with a two-byte artifact, one-byte chunks and the
write of part 2 raising, split_file signals the failure (returns the empty
list), but the file for part 2 — created by opening it before the failed write —
survives on disk, because the except branch deletes only files already appended
to the parts list. A partial part file therefore survives a failed split. -/
theorem C3_counterexample :
    (split_file_run [0, 1] 1 noFailure failAtTwo).1 = []
    ∧ (split_file_run [0, 1] 1 noFailure failAtTwo).2 = [2] := by
  constructor <;> simp [split_file_run, splitGo, noFailure, failAtTwo]

/-- C3 amended: when a read or write fails during split_file, every part file
already recorded in the parts list (every fully written part) is deleted before
the failure result (the empty list) is returned; but the part file freshly
created for the failing write itself is not deleted, so exactly that one file
may survive. On success the files on disk are exactly the returned parts; on
the failure branch the disk retains either nothing (read failure) or the single
part whose write failed. -/
theorem C3_amended_failed_split_cleanup (data : List Nat) (L : Nat)
    (rf wf : Nat → Bool) :
    ((split_file_run data L rf wf).1 ≠ [] →
        (split_file_run data L rf wf).2 = (split_file_run data L rf wf).1)
    ∧ ((split_file_run data L rf wf).1 = [] →
        (split_file_run data L rf wf).2 = []
        ∨ ∃ k, (split_file_run data L rf wf).2 = [k] ∧ wf k = true) :=
  splitGo_outcome L rf wf data.length data 1 [] rfl (by simp)

/-- Witness for C3 amended at a concrete input: a successful one-part split of a
one-byte file leaves exactly the returned part on disk. -/
theorem C3_amended_witness :
    (split_file_run [9] 1 noFailure noFailure).2
      = (split_file_run [9] 1 noFailure noFailure).1 :=
  (C3_amended_failed_split_cleanup [9] 1 noFailure noFailure).1
    (by simp [split_file_run, splitGo, noFailure])

theorem splitFile_nil (L : Nat) : splitFile [] L = [] := by
  simp [splitFile]

theorem splitFile_ne_nil (L : Nat) (data : List Nat) (hL : L ≠ 0) (hd : data ≠ []) :
    splitFile data L ≠ [] := by
  rw [splitFile.eq_def, dif_neg (by rintro (h | h); exact hL h; exact hd h)]
  exact List.cons_ne_nil _ _

theorem splitFile_flatten (L : Nat) (hL : 0 < L) :
    ∀ n data, List.length data = n → (splitFile data L).flatten = data := by
  intro n
  induction n using Nat.strong_induction_on with
  | _ n ih =>
      intro data hlen
      rw [splitFile.eq_def]
      by_cases h : L = 0 ∨ data = []
      · rw [dif_pos h]
        rcases h with h | h
        · exact absurd h (by omega)
        · rw [h]
          rfl
      · rw [dif_neg h]
        have hd : data ≠ [] := fun hh => h (Or.inr hh)
        have hpos := List.length_pos.mpr hd
        rw [List.flatten_cons,
          ih (data.drop L).length (by simp only [List.length_drop]; omega)
            (data.drop L) rfl]
        exact List.take_append_drop L data

theorem splitFile_length (L : Nat) (hL : 0 < L) :
    ∀ n data, List.length data = n → data ≠ [] →
      (splitFile data L).length = (data.length + L - 1) / L := by
  intro n
  induction n using Nat.strong_induction_on with
  | _ n ih =>
      intro data hlen hd
      rw [splitFile.eq_def, dif_neg (by rintro (h | h); omega; exact hd h)]
      have hpos := List.length_pos.mpr hd
      by_cases hsmall : data.length ≤ L
      · have hdrop : data.drop L = [] := List.drop_eq_nil_of_le hsmall
        have hdiv : (data.length + L - 1) / L = 1 :=
          Nat.div_eq_of_lt_le (by omega) (by omega)
        simp [hdrop, splitFile_nil, hdiv]
      · have hd2 : data.drop L ≠ [] := by
          intro hh
          have := congrArg List.length hh
          simp only [List.length_drop, List.length_nil] at this
          omega
        have hrec := ih (data.drop L).length
          (by simp only [List.length_drop]; omega) (data.drop L) rfl hd2
        rw [List.length_cons, hrec]
        simp only [List.length_drop]
        have h1 : data.length - L + L - 1 = data.length - 1 := by omega
        have h2 : data.length + L - 1 = data.length - 1 + L := by omega
        rw [h1, h2, Nat.add_div_right _ hL]

theorem splitFile_dropLast (L : Nat) (hL : 0 < L) :
    ∀ n data, List.length data = n →
      ∀ part ∈ (splitFile data L).dropLast, part.length = L := by
  intro n
  induction n using Nat.strong_induction_on with
  | _ n ih =>
      intro data hlen
      rw [splitFile.eq_def]
      by_cases h : L = 0 ∨ data = []
      · rw [dif_pos h]
        intro part hp
        cases hp
      · rw [dif_neg h]
        have hd : data ≠ [] := fun hh => h (Or.inr hh)
        have hpos := List.length_pos.mpr hd
        by_cases hsmall : data.length ≤ L
        · have hdrop : data.drop L = [] := List.drop_eq_nil_of_le hsmall
          rw [hdrop, splitFile_nil]
          intro part hp
          cases hp
        · have hd2 : data.drop L ≠ [] := by
            intro hh
            have := congrArg List.length hh
            simp only [List.length_drop, List.length_nil] at this
            omega
          have hrestne : splitFile (data.drop L) L ≠ [] :=
            splitFile_ne_nil L (data.drop L) (by omega) hd2
          rw [List.dropLast_cons_of_ne_nil hrestne]
          intro part hp
          rcases List.mem_cons.mp hp with hp | hp
          · rw [hp, List.length_take]
            omega
          · exact ih (data.drop L).length
              (by simp only [List.length_drop]; omega) (data.drop L) rfl part hp

theorem splitFile_getLast (L : Nat) (hL : 0 < L) :
    ∀ n data, List.length data = n → data ≠ [] →
      ∃ last, (splitFile data L).getLast? = some last
        ∧ 0 < last.length ∧ last.length ≤ L := by
  intro n
  induction n using Nat.strong_induction_on with
  | _ n ih =>
      intro data hlen hd
      rw [splitFile.eq_def, dif_neg (by rintro (h | h); omega; exact hd h)]
      have hpos := List.length_pos.mpr hd
      by_cases hsmall : data.length ≤ L
      · have hdrop : data.drop L = [] := List.drop_eq_nil_of_le hsmall
        rw [hdrop, splitFile_nil]
        refine ⟨data.take L, rfl, ?_, ?_⟩
        · rw [List.length_take]
          omega
        · rw [List.length_take]
          omega
      · have hd2 : data.drop L ≠ [] := by
          intro hh
          have := congrArg List.length hh
          simp only [List.length_drop, List.length_nil] at this
          omega
        obtain ⟨last, hlast, hpos2, hle⟩ := ih (data.drop L).length
          (by simp only [List.length_drop]; omega) (data.drop L) rfl hd2
        refine ⟨last, ?_, hpos2, hle⟩
        have hrestne : splitFile (data.drop L) L ≠ [] :=
          splitFile_ne_nil L (data.drop L) (by omega) hd2
        obtain ⟨b, t, hbt⟩ : ∃ b t, splitFile (data.drop L) L = b :: t := by
          cases hre : splitFile (data.drop L) L
          · exact absurd hre hrestne
          · exact ⟨_, _, rfl⟩
        rw [hbt, List.getLast?_cons_cons, ← hbt]
        exact hlast

/-- C1: for every nonempty artifact and every positive block size L, split_file
produces exactly ceil(S/L) parts (with S the artifact size and ceiling written
as (S + L - 1) / L in natural division), the part lengths sum to S, every part
except the last has length exactly L, the last part is nonempty and at most L
long, and concatenating the parts byte-for-byte reproduces the artifact. -/
theorem C1_split_file_plan (data : List Nat) (L : Nat)
    (hS : 0 < data.length) (hL : 0 < L) :
    (splitFile data L).length = (data.length + L - 1) / L
    ∧ ((splitFile data L).map List.length).sum = data.length
    ∧ (∀ part ∈ (splitFile data L).dropLast, part.length = L)
    ∧ (∃ last, (splitFile data L).getLast? = some last
        ∧ 0 < last.length ∧ last.length ≤ L)
    ∧ (splitFile data L).flatten = data := by
  have hd : data ≠ [] := by
    intro h
    rw [h] at hS
    simp at hS
  refine ⟨splitFile_length L hL data.length data rfl hd, ?_,
    fun part hp => splitFile_dropLast L hL data.length data rfl part hp,
    splitFile_getLast L hL data.length data rfl hd,
    splitFile_flatten L hL data.length data rfl⟩
  rw [← List.length_flatten, splitFile_flatten L hL data.length data rfl]

/-- Witness for C1 at a concrete input: three bytes split into two-byte blocks
give ceil(3/2) = 2 parts whose concatenation is the original bytes. -/
theorem C1_witness :
    (splitFile [0, 1, 2] 2).length = 2
    ∧ (splitFile [0, 1, 2] 2).flatten = [0, 1, 2] := by
  have h := C1_split_file_plan [0, 1, 2] 2 (by decide) (by decide)
  exact ⟨h.1, h.2.2.2.2⟩

theorem runFrom_nil (s : LimiterRun) : runFrom s [] = some s := rfl

theorem foldl_limiter_none (l : List LimiterEvent) :
    l.foldl (fun acc e => acc.bind (fun s2 => limiterStep s2 e)) none = none := by
  induction l with
  | nil => rfl
  | cons e l ih =>
      simp only [List.foldl_cons, Option.none_bind]
      exact ih

theorem runFrom_cons (s : LimiterRun) (e : LimiterEvent) (l : List LimiterEvent) :
    runFrom s (e :: l) = (limiterStep s e).bind (fun s1 => runFrom s1 l) := by
  rw [runFrom, List.foldl_cons]
  cases h : limiterStep s e with
  | none =>
      simp only [Option.some_bind, h, Option.none_bind]
      exact foldl_limiter_none l
  | some s1 =>
      simp only [Option.some_bind, h]
      rfl

theorem runFrom_append (s : LimiterRun) (l1 l2 : List LimiterEvent) :
    runFrom s (l1 ++ l2) = (runFrom s l1).bind (fun s1 => runFrom s1 l2) := by
  rw [runFrom, List.foldl_append]
  cases h : runFrom s l1 with
  | none =>
      rw [show l1.foldl (fun acc e => acc.bind (fun s2 => limiterStep s2 e)) (some s)
          = runFrom s l1 from rfl, h]
      simp only [Option.none_bind]
      exact foldl_limiter_none l2
  | some s1 =>
      rw [show l1.foldl (fun acc e => acc.bind (fun s2 => limiterStep s2 e)) (some s)
          = runFrom s l1 from rfl, h]
      rfl

theorem limiterStep_enter_ceiling (s : LimiterRun) (t : Nat) (hnow : s.now ≤ t)
    (hlm : s.rl.last_minute = t / 600) (hc : 1199 ≤ s.rl.messages_per_minute) :
    limiterStep s (LimiterEvent.enter t) = some
      { rl := { message_count := s.rl.message_count + 1,
                last_minute := s.rl.last_minute,
                messages_per_minute := s.rl.messages_per_minute + 1 },
        sleepers := s.sleepers ++ [(t / 600 + 1) * 600], now := t,
        calls := s.calls } := by
  have hnotlt : ¬ t < s.now := by omega
  have hnoroll : rollWindow s.rl (t / 600) = s.rl := by
    rw [rollWindow, if_neg (by omega)]
  have hceil : 1200 ≤ (countCall s.rl).messages_per_minute := by
    simp only [countCall]
    omega
  simp only [limiterStep, hnotlt, if_false, hnoroll, hceil, if_true]
  rfl

theorem limiterStep_wake_pop (s : LimiterRun) (t d : Nat) (rest : List Nat)
    (hs : s.sleepers = d :: rest) (hd : d ≤ t) (hnow : s.now ≤ t) :
    limiterStep s (LimiterEvent.wake t) = some
      { rl := { message_count := s.rl.message_count,
                last_minute := t / 600, messages_per_minute := 0 },
        sleepers := rest, now := t, calls := t :: s.calls } := by
  have hcond : ¬ (t < d ∨ t < s.now) := by omega
  simp only [limiterStep, hs, hcond, if_false]

theorem limiterStep_enter_below (s : LimiterRun) (t : Nat) (ht : t % 600 ≤ 589)
    (hnow : s.now ≤ t) (hlm : s.rl.last_minute = t / 600)
    (hc : s.rl.messages_per_minute + 1 ≤ 1199) :
    ∃ x : Nat, x / 600 = t / 600 ∧ limiterStep s (LimiterEvent.enter t) = some
      { rl := { message_count := s.rl.message_count + 1,
                last_minute := s.rl.last_minute,
                messages_per_minute := s.rl.messages_per_minute + 1 },
        sleepers := s.sleepers, now := t, calls := x :: s.calls } := by
  have hnotlt : ¬ t < s.now := by omega
  have hnoroll : rollWindow s.rl (t / 600) = s.rl := by
    rw [rollWindow, if_neg (by omega)]
  have hceil : ¬ 1200 ≤ (countCall s.rl).messages_per_minute := by
    simp only [countCall]
    omega
  by_cases h20 : (countCall s.rl).message_count % 20 = 0
  · refine ⟨t + 10, by omega, ?_⟩
    simp only [limiterStep, hnotlt, if_false, hnoroll, hceil, h20, if_true]
    rfl
  · by_cases h5 : (countCall s.rl).message_count % 5 = 0
    · refine ⟨t + 2, by omega, ?_⟩
      simp only [limiterStep, hnotlt, if_false, hnoroll, hceil, h20, h5, if_true]
      rfl
    · refine ⟨t, by omega, ?_⟩
      simp only [limiterStep, hnotlt, if_false, hnoroll, hceil, h20, h5]
      rfl

theorem runFrom_replicate_enter (t : Nat) (ht : t % 600 ≤ 589) :
    ∀ k (s : LimiterRun), s.now ≤ t → s.rl.last_minute = t / 600 →
      s.rl.messages_per_minute + k ≤ 1199 →
      ∃ s', runFrom s (List.replicate k (LimiterEvent.enter t)) = some s'
        ∧ s'.rl.messages_per_minute = s.rl.messages_per_minute + k
        ∧ s'.rl.last_minute = s.rl.last_minute
        ∧ s'.sleepers = s.sleepers
        ∧ s'.now ≤ t
        ∧ ∀ m, (s'.calls.filter (fun u => u / 600 = m)).length
            = (s.calls.filter (fun u => u / 600 = m)).length
              + (if t / 600 = m then k else 0) := by
  intro k
  induction k with
  | zero =>
      intro s hnow hlm hc
      exact ⟨s, rfl, by omega, rfl, rfl, hnow, fun m => by simp⟩
  | succ k ihk =>
      intro s hnow hlm hc
      obtain ⟨x, hx, hstep⟩ := limiterStep_enter_below s t ht hnow hlm (by omega)
      rw [List.replicate_succ, runFrom_cons, hstep, Option.some_bind]
      obtain ⟨s', hrun, hmpm, hlm2, hsl, hnow2, hcnt⟩ := ihk
        { rl := { message_count := s.rl.message_count + 1,
                  last_minute := s.rl.last_minute,
                  messages_per_minute := s.rl.messages_per_minute + 1 },
          sleepers := s.sleepers, now := t, calls := x :: s.calls }
        (le_refl t) hlm
        (by show s.rl.messages_per_minute + 1 + k ≤ 1199; omega)
      refine ⟨s', hrun, ?_, hlm2, hsl, hnow2, fun m => ?_⟩
      · rw [hmpm]
        show s.rl.messages_per_minute + 1 + k = s.rl.messages_per_minute + (k + 1)
        omega
      rw [hcnt m]
      by_cases hm : t / 600 = m
      · rw [if_pos hm, if_pos hm]
        have hxm : (decide (x / 600 = m)) = true := by
          rw [decide_eq_true_eq]
          omega
        simp only [List.filter_cons, hxm, if_true, List.length_cons]
        omega
      · rw [if_neg hm, if_neg hm]
        have hxm : (decide (x / 600 = m)) = false := by
          rw [decide_eq_false_iff_not]
          omega
        simp only [List.filter_cons, hxm, Bool.false_eq_true, if_false]

theorem runWakePhase (mc mpm snow : Nat) (calls : List Nat)
    (hnow : snow ≤ 0) (hmpm : 1199 ≤ mpm) (rest : List LimiterEvent) :
    runFrom
        { rl := { message_count := mc, last_minute := 0, messages_per_minute := mpm },
          sleepers := [], now := snow, calls := calls }
        (LimiterEvent.enter 0 :: LimiterEvent.enter 0 :: LimiterEvent.wake 600 ::
          LimiterEvent.wake 600 :: rest)
      = runFrom
        { rl := { message_count := mc + 1 + 1, last_minute := 1,
                  messages_per_minute := 0 },
          sleepers := [], now := 600, calls := 600 :: 600 :: calls } rest := by
  have h2 := limiterStep_enter_ceiling
    { rl := { message_count := mc, last_minute := 0, messages_per_minute := mpm },
      sleepers := [], now := snow, calls := calls } 0 hnow rfl hmpm
  rw [runFrom_cons, h2, Option.some_bind]
  show runFrom
      { rl := { message_count := mc + 1, last_minute := 0,
                messages_per_minute := mpm + 1 },
        sleepers := [600], now := 0, calls := calls }
      (LimiterEvent.enter 0 :: LimiterEvent.wake 600 :: LimiterEvent.wake 600 :: rest) = _
  have h3 := limiterStep_enter_ceiling
    { rl := { message_count := mc + 1, last_minute := 0,
              messages_per_minute := mpm + 1 },
      sleepers := [600], now := 0, calls := calls } 0 (le_refl 0) rfl
    (by show 1199 ≤ mpm + 1; omega)
  rw [runFrom_cons, h3, Option.some_bind]
  show runFrom
      { rl := { message_count := mc + 1 + 1, last_minute := 0,
                messages_per_minute := mpm + 1 + 1 },
        sleepers := [600, 600], now := 0, calls := calls }
      (LimiterEvent.wake 600 :: LimiterEvent.wake 600 :: rest) = _
  have h4 := limiterStep_wake_pop
    { rl := { message_count := mc + 1 + 1, last_minute := 0,
              messages_per_minute := mpm + 1 + 1 },
      sleepers := [600, 600], now := 0, calls := calls }
    600 600 [600] rfl (le_refl 600) (by show (0 : Nat) ≤ 600; omega)
  rw [runFrom_cons, h4, Option.some_bind]
  show runFrom
      { rl := { message_count := mc + 1 + 1, last_minute := 1,
                messages_per_minute := 0 },
        sleepers := [600], now := 600, calls := 600 :: calls }
      (LimiterEvent.wake 600 :: rest) = _
  have h5 := limiterStep_wake_pop
    { rl := { message_count := mc + 1 + 1, last_minute := 1,
              messages_per_minute := 0 },
      sleepers := [600], now := 600, calls := 600 :: calls }
    600 600 [] rfl (le_refl 600) (le_refl 600)
  rw [runFrom_cons, h5, Option.some_bind]

set_option maxRecDepth 100000 in
/-- C5 fails on the code in its ceiling conjunct: the schedule c5Events is a
valid interleaving (its run succeeds) in which 1201 outbound calls are issued
during wall-clock minute 1, exceeding the ceiling of 1200. The two callers
suspended at the ceiling during minute 0 wake at the boundary and issue their
calls uncounted (each wake-up zeroes the per-minute counter without counting its
own call), after which 1199 further callers pass the counter check within the
same minute. -/
theorem C5_counterexample :
    (limiterRun 0 c5Events).isSome = true
    ∧ callsInMinute (limiterRun 0 c5Events) 1 = 1201 := by
  obtain ⟨s1, h1run, h1mpm, h1lm, h1sl, h1now, h1cnt⟩ :=
    runFrom_replicate_enter 0 (by omega) 1199 (initLimiterRun 0)
      (le_refl 0) rfl (by show (0 : Nat) + 1199 ≤ 1199; omega)
  obtain ⟨⟨mc1, lm1, mpm1⟩, sl1, now1, calls1⟩ := s1
  have hlm0 : lm1 = 0 := h1lm
  have hsl0 : sl1 = [] := h1sl
  subst hlm0
  subst hsl0
  have hmpmeq : mpm1 = 1199 := h1mpm
  have hmpm1 : 1199 ≤ mpm1 := by omega
  have hc1 : (calls1.filter (fun u => u / 600 = 1)).length
      = ((initLimiterRun 0).calls.filter (fun u => u / 600 = 1)).length
        + (if 0 / 600 = 1 then 1199 else 0) := h1cnt 1
  simp only [initLimiterRun, List.filter_nil, List.length_nil] at hc1
  rw [if_neg (by norm_num)] at hc1
  rw [Nat.add_zero] at hc1
  have hsplit : c5Events = List.replicate 1199 (LimiterEvent.enter 0)
      ++ (LimiterEvent.enter 0 :: LimiterEvent.enter 0 :: LimiterEvent.wake 600 ::
          LimiterEvent.wake 600 :: List.replicate 1199 (LimiterEvent.enter 600)) := by
    have h12 : (1201 : Nat) = 1199 + 2 := by norm_num
    rw [c5Events, h12, List.replicate_add, List.append_assoc,
      show List.replicate 2 (LimiterEvent.enter 0)
        = [LimiterEvent.enter 0, LimiterEvent.enter 0] from rfl]
    exact congrArg (fun R => List.replicate 1199 (LimiterEvent.enter 0) ++ R) rfl
  obtain ⟨s6, h6run, h6mpm, h6lm, h6sl, h6now, h6cnt⟩ :=
    runFrom_replicate_enter 600 (by omega) 1199
      { rl := { message_count := mc1 + 1 + 1, last_minute := 1,
                messages_per_minute := 0 },
        sleepers := [], now := 600, calls := 600 :: 600 :: calls1 }
      (le_refl 600) rfl (by show (0 : Nat) + 1199 ≤ 1199; omega)
  have hfinal : limiterRun 0 c5Events = some s6 := by
    rw [limiterRun, hsplit, runFrom_append, h1run, Option.some_bind,
      runWakePhase mc1 mpm1 now1 calls1 h1now hmpm1, h6run]
  refine ⟨by rw [hfinal]; rfl, ?_⟩
  rw [hfinal]
  show (s6.calls.filter (fun u => u / 600 = 1)).length = 1201
  rw [h6cnt 1]
  show ((600 :: 600 :: calls1).filter (fun u => u / 600 = 1)).length
      + (if 600 / 600 = 1 then 1199 else 0) = 1201
  rw [if_pos (by norm_num)]
  have h600 : (decide ((600 : Nat) / 600 = 1)) = true := by decide
  simp only [List.filter_cons, h600, if_true, List.length_cons, hc1]
  simp [hc1]

/-- C5 amended: the per-window counter is reset to zero exactly when the
wall-clock minute advances past the stored window-start minute (otherwise the
window state is untouched), and a caller whose increment reaches the ceiling of
1200 is suspended until the next minute boundary without issuing its outbound
call. However the ceiling does not bound the calls issued within one wall-clock
minute under concurrency: a caller waking from the ceiling sleep zeroes the
counter and issues its own call uncounted, so with several concurrent sleepers
more than 1200 calls can be issued in one minute (see the counterexample). -/
theorem C5_amended_reset_and_suspend (s : LimiterRun) (t : Nat) (h : s.now ≤ t) :
    (s.rl.last_minute < t / 600 →
        (rollWindow s.rl (t / 600)).messages_per_minute = 0
        ∧ (rollWindow s.rl (t / 600)).last_minute = t / 600)
    ∧ (¬ s.rl.last_minute < t / 600 → rollWindow s.rl (t / 600) = s.rl)
    ∧ (1200 ≤ (countCall (rollWindow s.rl (t / 600))).messages_per_minute →
        limiterStep s (LimiterEvent.enter t) = some
          { rl := countCall (rollWindow s.rl (t / 600)),
            sleepers := s.sleepers ++ [(t / 600 + 1) * 600], now := t,
            calls := s.calls }) := by
  refine ⟨fun hroll => ?_, fun hroll => ?_, fun hc => ?_⟩
  · rw [rollWindow, if_pos hroll]
    exact ⟨rfl, rfl⟩
  · rw [rollWindow, if_neg hroll]
  · have hnotlt : ¬ t < s.now := by omega
    simp only [limiterStep, hnotlt, if_false, hc, if_true]

/-- Witness for C5 amended at a concrete state: with the window already current
and the counter at 1199, an enter at time 30 does not roll the window, reaches
the ceiling, and suspends the caller until the minute boundary with no call
issued. -/
theorem C5_amended_witness :
    rollWindow { message_count := 7, last_minute := 0, messages_per_minute := 1199 }
        (30 / 600)
      = { message_count := 7, last_minute := 0, messages_per_minute := 1199 }
    ∧ limiterStep
        { rl := { message_count := 7, last_minute := 0, messages_per_minute := 1199 },
          sleepers := [], now := 0, calls := [] } (LimiterEvent.enter 30)
      = some
        { rl := countCall (rollWindow
            { message_count := 7, last_minute := 0, messages_per_minute := 1199 }
            (30 / 600)),
          sleepers := [] ++ [(30 / 600 + 1) * 600], now := 30, calls := [] } :=
  ⟨(C5_amended_reset_and_suspend
      { rl := { message_count := 7, last_minute := 0, messages_per_minute := 1199 },
        sleepers := [], now := 0, calls := [] } 30 (by decide)).2.1 (by decide),
   (C5_amended_reset_and_suspend
      { rl := { message_count := 7, last_minute := 0, messages_per_minute := 1199 },
        sleepers := [], now := 0, calls := [] } 30 (by decide)).2.2 (by decide)⟩
